import Mathlib

/-!
Verification development for the Transmute file-conversion service.

The client (React frontend under `src/frontend` and the unnamed page
modules) is embedded directly from its TypeScript source.  The server-side
subsystem (Metadata Store, Converter Registry, Conversion Job Engine,
File Store) is not part of the source tree; those operations are modelled
from the specification, and each such definition says so in its doc
comment.
-/

namespace Transmute

/-! ## Client-side string helpers (FileListItem.tsx, History.tsx, Converter page) -/

/-- JavaScript `x || dflt` on an optional string: `undefined` and the empty
string are falsy and fall through to the default. -/
def jsStringOr (s : Option String) (dflt : String) : String :=
  match s with
  | none => dflt
  | some v => if v = "" then dflt else v

/-- Index of the last occurrence of `'.'` in a character list, as used by
JavaScript `String.prototype.lastIndexOf('.')` (which returns `-1` when the
character is absent; absence is `none` here). -/
def lastDotIdx : List Char → Option Nat
  | [] => none
  | c :: rest =>
    match lastDotIdx rest with
    | some i => some (i + 1)
    | none => if c = '.' then some 0 else none

/-- JavaScript `lastIndexOf('.')` proper: `-1` when there is no dot. -/
def jsLastIndexOfDot (s : String) : Int :=
  match lastDotIdx s.toList with
  | none => -1
  | some i => (i : Int)

/-- Embedded from `src/frontend/src/pages/History.tsx` lines 61–66 (and the
identical block in the Converter page `handleDownload`): the download
filename for a completed conversion.
```
let filename = conversion.original_filename || 'download'
const lastDotIndex = filename.lastIndexOf('.')
if (lastDotIndex > 0) { filename = filename.substring(0, lastDotIndex) }
filename += conversion.extension || ''
``` -/
def handleDownloadFilename (original_filename extension : Option String) : String :=
  let filename := jsStringOr original_filename "download"
  let lastDotIndex := jsLastIndexOfDot filename
  let filename :=
    if lastDotIndex > 0 then String.mk (filename.toList.take lastDotIndex.toNat)
    else filename
  filename ++ jsStringOr extension ""

/-- Embedded from `src/frontend/src/components/FileListItem.tsx` lines 67–77,
`getDisplayFilename`.  `hasConversion` stands for the `conversion` prop being
present; only the conversion's `extension` field is read, so it is passed
directly. -/
def getDisplayFilename (isPending hasConversion : Bool)
    (file_original_filename conversionExtension : Option String) : String :=
  let name := jsStringOr file_original_filename "download"
  if isPending || !hasConversion then name
  else
    let dot := jsLastIndexOfDot name
    let base := if dot > 0 then String.mk (name.toList.take dot.toNat) else name
    base ++ jsStringOr conversionExtension ""

/-- The output-filename rule exactly as the specification claim words it:
start from the source's `original_filename` (or the literal `"download"`
when it is empty or missing); if the last `'.'` in that name occurs at an
index greater than 0, keep only the prefix before it, otherwise (no dot, or
a single leading dot) keep the whole name; then append the conversion's
extension string verbatim (or the empty string when missing). -/
def claimedOutputFilename (original_filename extension : Option String) : String :=
  let name := jsStringOr original_filename "download"
  let cs := name.toList
  let base :=
    match lastDotIdx cs with
    | some i => if 0 < i then cs.take i else cs
    | none => cs
  String.mk base ++ extension.getD ""

/-! ## Client-side batch delete (History.tsx `handleDeleteSelected`) -/

/-- Outcome of one `DELETE` request as observable by the client loop:
the response was ok, the response was not ok (the loop throws
`new Error('Delete failed')`), or the fetch itself rejected with an `Error`
carrying some message. -/
inductive DeleteOutcome where
  | ok
  | httpError
  | netError (msg : String)
deriving DecidableEq

/-- The error message the catch block records for one item, if any:
`err instanceof Error ? err.message : 'Delete failed'`. -/
def outcomeError : DeleteOutcome → Option String
  | .ok => none
  | .httpError => some "Delete failed"
  | .netError m => some m

/-- Last element of a list, if any. -/
def lastOpt {α : Type} : List α → Option α
  | [] => none
  | a :: l =>
    match lastOpt l with
    | some b => some b
    | none => some a

/-- The first value when present, the second otherwise. -/
def orDefault {α : Type} (x dflt : Option α) : Option α :=
  match x with
  | some m => some m
  | none => dflt

/-- One row of the client's conversion list; the delete loop only ever
inspects `id`. -/
structure ClientConv where
  id : String
  original_filename : String
deriving DecidableEq

/-- The component state touched by `handleDeleteSelected` in
`src/frontend/src/pages/History.tsx`: the displayed conversions, the
selection set (a JS `Set`, modelled by its iteration order as a list), and
the single `error` slot. -/
structure HistoryState where
  conversions : List ClientConv
  selectedIds : List String
  error : Option String
deriving DecidableEq

/-- The `for (const conversionId of idsToDelete)` loop of
`handleDeleteSelected` (History.tsx lines 119–126): each id gets its own
`fetch`; a failure is caught and overwrites the `error` slot, and the loop
continues.  Returns the list of ids for which a request was issued, in
order, together with the final `error` value. -/
def deleteLoop (outcome : String → DeleteOutcome) :
    List String → Option String → List String × Option String
  | [], err => ([], err)
  | i :: rest, err =>
    let err' :=
      match outcomeError (outcome i) with
      | none => err
      | some m => some m
    let r := deleteLoop outcome rest err'
    (i :: r.1, r.2)

/-- Embedded from `src/frontend/src/pages/History.tsx` lines 113–131,
`handleDeleteSelected`: guard on empty selection, clear `error`
(`setError(null)`), run the sequential delete loop, then filter the list by
the selection set and empty the selection.  `outcome` abstracts the server's
response to each `DELETE /conversions/{id}`.  The first component of the
result is the list of ids actually requested, in order. -/
def handleDeleteSelected (outcome : String → DeleteOutcome) (st : HistoryState) :
    List String × HistoryState :=
  if st.selectedIds.isEmpty then ([], st)
  else
    let r := deleteLoop outcome st.selectedIds none
    (r.1,
      { conversions := st.conversions.filter (fun c => !st.selectedIds.contains c.id)
        selectedIds := []
        error := r.2 })

/-! ## Converter Registry (modelled from the spec, section 4.2) -/

/-- Modelled from the spec: format identifiers are normalized
(case-insensitive, no leading dot) before lookup. -/
def normalizeFormat (s : String) : String :=
  match s.toList.map Char.toLower with
  | '.' :: rest => String.mk rest
  | cs => String.mk cs

/-- Modelled from the spec: the Converter Registry maps
(input format, output format) pairs to a converter implementation,
identified here by a human-readable converter id; populated once at
startup. -/
structure Registry where
  entries : List (String × String × String)
deriving DecidableEq

/-- Modelled from the spec: `resolve(input_format, output_format) ->
implementation | NotSupported`, deterministic (first registered wins),
looking up normalized format identifiers. -/
def resolve (reg : Registry) (inputF outputF : String) : Option String :=
  (reg.entries.find? (fun e =>
    normalizeFormat e.1 == normalizeFormat inputF &&
    normalizeFormat e.2.1 == normalizeFormat outputF)).map (fun e => e.2.2)

/-- Modelled from the spec: `listCompatibleOutputs(input_format) -> set of
output_format`, the list of output formats some registered converter
accepts for this input; drives the `compatible_formats` hint returned
after upload. -/
def listCompatibleOutputs (reg : Registry) (inputF : String) : List String :=
  reg.entries.filterMap (fun e =>
    if normalizeFormat e.1 == normalizeFormat inputF then some e.2.1 else none)

/-! ## Data model and stores (modelled from the spec, sections 3, 4.1, 4.4) -/

/-- Modelled from the spec: ConversionJob status
(pending, running, complete, failed). -/
inductive JobStatus where
  | pending
  | running
  | complete
  | failed
deriving DecidableEq

/-- `complete` and `failed` are the terminal statuses. -/
def JobStatus.isTerminal : JobStatus → Bool
  | .complete => true
  | .failed => true
  | _ => false

/-- Position of a status along the forward lifecycle
pending → running → {complete | failed}. -/
def statusRank : JobStatus → Nat
  | .pending => 0
  | .running => 1
  | .complete => 2
  | .failed => 2

/-- Modelled from the spec: the admissible status transitions — monotonic,
pending → running → {complete | failed}, no transition out of a terminal
state. -/
def canStep : JobStatus → JobStatus → Bool
  | .pending, .running => true
  | .running, .complete => true
  | .running, .failed => true
  | _, _ => false

/-- Modelled from the spec: content hash of a byte payload, recorded on the
FileRecord to enable future dedup. -/
def checksum (bytes : List Nat) : Nat :=
  bytes.foldl (fun h b => (h * 31 + b) % 2 ^ 64) 7

/-- Modelled from the spec: FileRecord — one persisted metadata row per
stored byte payload. -/
structure FileRecord where
  id : Nat
  storage_path : Nat
  original_filename : String
  media_type : String
  extension : String
  size_bytes : Nat
  checksum : Nat
  created_at : Nat
deriving DecidableEq

/-- Modelled from the spec: the structured error recorded on a failed job
(UnsupportedFormat, CorruptInput, ConverterCrashed, StorageFailure,
Timeout). -/
inductive JobError where
  | unsupportedFormat
  | corruptInput
  | converterCrashed
  | storageFailure
  | timeout
deriving DecidableEq

/-- Modelled from the spec: ConversionJob — output FileRecord → source
FileRecord plus job bookkeeping. -/
structure ConversionJob where
  id : Nat
  source_id : Nat
  output_id : Option Nat
  status : JobStatus
  input_format : String
  output_format : String
  error : Option JobError
deriving DecidableEq

/-- Modelled from the spec: the persistent state — Metadata Store rows for
FileRecord and ConversionJob, File Store payloads keyed by storage path,
and a counter generating fresh identifiers. -/
structure Store where
  files : List FileRecord
  jobs : List ConversionJob
  blobs : List (Nat × List Nat)
  nextId : Nat
deriving DecidableEq

/-- Modelled from the spec: File Store `put(bytes) -> storage_path`; the
path is fresh and readable immediately after `put` returns. -/
def put (st : Store) (bytes : List Nat) : Nat × Store :=
  (st.nextId,
    { st with blobs := (st.nextId, bytes) :: st.blobs, nextId := st.nextId + 1 })

/-- Modelled from the spec: File Store `get(storage_path) -> byte stream`. -/
def getBlob (st : Store) (p : Nat) : Option (List Nat) :=
  (st.blobs.find? (fun b => b.1 == p)).map (fun b => b.2)

/-- Modelled from the spec: File Store `delete(storage_path)`, idempotent —
deleting an already-absent path is not an error. -/
def deletePath (st : Store) (p : Nat) : Store :=
  { st with blobs := st.blobs.filter (fun b => b.1 != p) }

/-- Metadata Store read of a FileRecord by id. -/
def findFile (st : Store) (i : Nat) : Option FileRecord :=
  st.files.find? (fun f => f.id == i)

/-- Modelled from the spec: ingestion — File Store persists the bytes and
the Metadata Store records the file entity, with detected media type,
extension, size and content checksum. -/
def upload (st : Store) (fn mt ext : String) (t : Nat) (bytes : List Nat) :
    FileRecord × Store :=
  let pr := put st bytes
  let rec0 : FileRecord :=
    { id := pr.2.nextId
      storage_path := pr.1
      original_filename := fn
      media_type := mt
      extension := ext
      size_bytes := bytes.length
      checksum := checksum bytes
      created_at := t }
  (rec0, { pr.2 with files := rec0 :: pr.2.files, nextId := pr.2.nextId + 1 })

/-- Modelled from the spec: `GET /files/{id}` — the raw bytes of a file, read
through its record's storage path. -/
def downloadFile (st : Store) (i : Nat) : Option (List Nat) :=
  (findFile st i).bind (fun r => getBlob st r.storage_path)

/-- Modelled from the spec: the caller-distinguishable Metadata Store errors
(NotFound, Conflict, IOError). -/
inductive ApiError where
  | notFound
  | conflict
  | ioError
deriving DecidableEq

/-- The delete step once the record has been found: Conflict when the file
is the source of a running job, otherwise remove the row and reclaim its
File Store payload. -/
def deleteFound (st : Store) (i : Nat) (r : FileRecord) :
    Except ApiError Unit × Store :=
  if st.jobs.any (fun j => j.source_id == i && j.status == .running) then
    (.error .conflict, st)
  else
    (.ok (),
      deletePath { st with files := st.files.filter (fun f => f.id != i) }
        r.storage_path)

/-- Modelled from the spec: `DELETE /files/{id}` — NotFound when the id is
absent, Conflict when the file is the source of a running job, otherwise
remove the row and reclaim its File Store payload. -/
def deleteFile (st : Store) (i : Nat) : Except ApiError Unit × Store :=
  match findFile st i with
  | none => (.error .notFound, st)
  | some r => deleteFound st i r

/-! ## Conversion Job Engine (modelled from the spec, section 4.3) -/

/-- Request-level failures of `submit`, surfaced before or at job creation. -/
inductive SubmitError where
  | invalidRequest
  | notFound
  | unsupportedFormat
deriving DecidableEq

/-- Replace the job row with the given id. -/
def setJob (st : Store) (i : Nat) (j : ConversionJob) : Store :=
  { st with jobs := st.jobs.map (fun j0 => if j0.id == i then j else j0) }

/-- The execution stage of one conversion: create the job row in `pending`,
transition it to `running`, invoke the converter (the plugin black box
`runConv`, by converter id) on the source bytes; on success persist the
output bytes, create the output FileRecord and complete the job; converter
failure or empty output fails the job. -/
def runJob (runConv : String → List Nat → Option (List Nat)) (st : Store)
    (sid : Nat) (src : FileRecord) (inputF outputF cid : String) :
    Except SubmitError Nat × Store :=
  let jid := st.nextId
  let job0 : ConversionJob :=
    { id := jid
      source_id := sid
      output_id := none
      status := .pending
      input_format := inputF
      output_format := outputF
      error := none }
  let st1 : Store :=
    { st with jobs := job0 :: st.jobs, nextId := st.nextId + 1 }
  let job1 := { job0 with status := JobStatus.running }
  let st2 := setJob st1 jid job1
  match getBlob st2 src.storage_path with
  | none =>
    (.ok jid,
      setJob st2 jid
        { job1 with status := .failed, error := some .storageFailure })
  | some bytes =>
    match runConv cid bytes with
    | none =>
      (.ok jid,
        setJob st2 jid
          { job1 with status := .failed, error := some .converterCrashed })
    | some outBytes =>
      if outBytes.isEmpty then
        (.ok jid,
          setJob st2 jid
            { job1 with status := .failed, error := some .converterCrashed })
      else
        let pr := put st2 outBytes
        let outRec : FileRecord :=
          { id := pr.2.nextId
            storage_path := pr.1
            original_filename := src.original_filename
            media_type := outputF
            extension := "." ++ normalizeFormat outputF
            size_bytes := outBytes.length
            checksum := checksum outBytes
            created_at := src.created_at }
        let st3 : Store :=
          { pr.2 with files := outRec :: pr.2.files, nextId := pr.2.nextId + 1 }
        (.ok jid,
          setJob st3 jid
            { job1 with status := .complete, output_id := some outRec.id })

/-- The validation and resolution stage of `submit` once the source record
has been read: reject zero-byte sources and input-format mismatches with
InvalidRequest; resolve a converter via the Registry — NotSupported fails
the request with UnsupportedFormat before any job row is created; only then
run the job. -/
def submitWithSource (runConv : String → List Nat → Option (List Nat))
    (reg : Registry) (st : Store) (sid : Nat) (src : FileRecord)
    (inputF outputF : String) : Except SubmitError Nat × Store :=
  if src.size_bytes == 0 then (.error .invalidRequest, st)
  else if normalizeFormat inputF != normalizeFormat src.extension then
    (.error .invalidRequest, st)
  else
    match resolve reg inputF outputF with
    | none => (.error .unsupportedFormat, st)
    | some cid => runJob runConv st sid src inputF outputF cid

/-- Modelled from the spec: `submit(source_file_id, input_format,
output_format) -> job_id`.  Validates that the source exists (InvalidRequest
otherwise), then validates the request and resolves a converter, and runs
the conversion synchronously. -/
def submit (runConv : String → List Nat → Option (List Nat)) (reg : Registry)
    (st : Store) (sid : Nat) (inputF outputF : String) :
    Except SubmitError Nat × Store :=
  match findFile st sid with
  | none => (.error .invalidRequest, st)
  | some src => submitWithSource runConv reg st sid src inputF outputF

/-! ## Completed-conversions query (spec section 4.1) and upload response -/

/-- The shape of one row of `GET /conversions/complete` as the client
declares it (`ConversionRecord` in `src/frontend/src/pages/History.tsx`
lines 14–22): the conversion output's own metadata, plus an optional
`original_file` join. -/
structure ConversionView where
  id : Nat
  original_filename : String
  media_type : String
  extension : String
  size_bytes : Nat
  created_at : Nat
  original_file : Option FileRecord
deriving DecidableEq

/-- One view row: the output FileRecord's metadata with the source file's
record joined when it still exists. -/
def mkView (st : Store) (j : ConversionJob) (out : FileRecord) : ConversionView :=
  { id := out.id
    original_filename := out.original_filename
    media_type := out.media_type
    extension := out.extension
    size_bytes := out.size_bytes
    created_at := out.created_at
    original_file := findFile st j.source_id }

/-- The view a single job contributes to the query, if any: only jobs whose
status is `complete` and whose output FileRecord exists contribute. -/
def completeView (st : Store) (j : ConversionJob) : Option ConversionView :=
  if j.status = .complete then
    j.output_id.bind (fun oid => (findFile st oid).map (mkView st j))
  else none

/-- Modelled from the spec: the Metadata Store query "all complete
conversions with their source file metadata joined", served as
`GET /conversions/complete`. -/
def completeConversions (st : Store) : List ConversionView :=
  st.jobs.filterMap (completeView st)

/-- The `metadata` object of the `POST /files` response as the client
consumes it (`src/unnamed/part_004` `handleFileSelect`, FileListItem's
`FileInfo`). -/
structure UploadResponseMeta where
  id : Nat
  original_filename : String
  media_type : String
  extension : String
  size_bytes : Nat
  created_at : Nat
  compatible_formats : List String
deriving DecidableEq

/-- Modelled from the spec: `POST /files` — ingest the upload and answer
with the new record's metadata, `compatible_formats` being the Registry's
`listCompatibleOutputs` for the uploaded file's format. -/
def postFiles (reg : Registry) (st : Store) (fn mt ext : String) (t : Nat)
    (bytes : List Nat) : UploadResponseMeta × Store :=
  let r := upload st fn mt ext t bytes
  ({ id := r.1.id
     original_filename := r.1.original_filename
     media_type := r.1.media_type
     extension := r.1.extension
     size_bytes := r.1.size_bytes
     created_at := r.1.created_at
     compatible_formats := listCompatibleOutputs reg ext }, r.2)

/-! ## Settings (Settings.tsx and spec section 6) -/

/-- Embedded from `src/frontend/src/pages/Settings.tsx` lines 35–40: the
process-wide configuration record. -/
structure AppSettings where
  theme : String
  auto_download : Bool
  keep_originals : Bool
  cleanup_ttl_minutes : Nat
deriving DecidableEq

/-- Embedded from `src/frontend/src/pages/Settings.tsx` lines 80–97
(`handleSave`): the JSON body the client PATCHes, built from its four
pieces of state. -/
def handleSavePayload (theme : String) (autoDownload saveOriginals : Bool)
    (cleanupTtl : Nat) : AppSettings :=
  { theme := theme
    auto_download := autoDownload
    keep_originals := saveOriginals
    cleanup_ttl_minutes := cleanupTtl }

/-- Modelled from the spec: `GET /settings` returns the single process-wide
configuration record. -/
def settingsGet (cfg : AppSettings) : AppSettings := cfg

/-- Modelled from the spec: `PATCH /settings` replaces the single
process-wide configuration record with the submitted one (the client
always sends all four recognized fields). -/
def settingsPatch (cfg new : AppSettings) : AppSettings :=
  let _ := cfg
  new

/-! ## Concrete instances used by witnesses and counterexamples -/

/-- A server behavior where the DELETE for id `"a"` fails with an `Error`
whose message is `"E"` and every other DELETE succeeds. -/
def ocFailFirst : String → DeleteOutcome :=
  fun i => if i = "a" then .netError "E" else .ok

/-- A server behavior where the DELETE for id `"b"` fails with an `Error`
whose message is `"E"` and every other DELETE succeeds. -/
def ocFailSecond : String → DeleteOutcome :=
  fun i => if i = "b" then .netError "E" else .ok

/-- A History page state with two conversions, both selected. -/
def stBatch : HistoryState :=
  { conversions := [{ id := "a", original_filename := "a.jpg" },
                    { id := "b", original_filename := "b.jpg" }]
    selectedIds := ["a", "b"]
    error := none }

/-- A registry with a single jpg → png converter. -/
def regW : Registry := { entries := [("jpg", "png", "img")] }

/-- A converter implementation that prepends one byte. -/
def runW : String → List Nat → Option (List Nat) := fun _ b => some (0 :: b)

/-- The empty persistent state. -/
def emptyStore : Store := { files := [], jobs := [], blobs := [], nextId := 0 }

/-- The record of one uploaded three-byte jpg file (its id is 1). -/
def recW : FileRecord :=
  (upload emptyStore "forest.jpg" "image/jpeg" ".jpg" 0 [1, 2, 3]).1

/-- The state after that one upload. -/
def stW : Store :=
  (upload emptyStore "forest.jpg" "image/jpeg" ".jpg" 0 [1, 2, 3]).2

/-- The state after uploading `forest.jpg`, converting it to png (the job
completes synchronously), and then deleting the source file. -/
def stC6 : Store :=
  (deleteFile (submit runW regW stW 1 "jpg" "png").2 1).2

/-! ## Shared lemmas -/

/-- Both client code paths compute the base name the same way the claimed
rule does: drop the suffix from the last dot when that dot's index is
positive, keep the whole name otherwise. -/
lemma base_name_eq (name : String) :
    (if jsLastIndexOfDot name > 0 then
        String.mk (name.toList.take (jsLastIndexOfDot name).toNat)
      else name) =
      String.mk
        (match lastDotIdx name.toList with
          | some i => if 0 < i then name.toList.take i else name.toList
          | none => name.toList) := by
  cases h : lastDotIdx name.toList with
  | none =>
    simp only [jsLastIndexOfDot, h]
    rw [if_neg (by decide : ¬ ((-1 : Int) > 0))]
    rfl
  | some i =>
    simp only [jsLastIndexOfDot, h]
    by_cases hi : 0 < i
    · have hz : ((i : Int) > 0) := by exact_mod_cast hi
      rw [if_pos hz, if_pos hi]
      simp
    · have hz : ¬ ((i : Int) > 0) := by
        simp only [gt_iff_lt]
        exact_mod_cast hi
      rw [if_neg hz, if_neg hi]
      rfl

/-- The JavaScript `ext || ''` coincides with `Option.getD` at the empty
default. -/
lemma jsStringOr_empty (ext : Option String) : jsStringOr ext "" = ext.getD "" := by
  cases ext with
  | none => rfl
  | some v =>
    simp only [jsStringOr, Option.getD_some]
    split
    · simp [*]
    · rfl

/-- `deleteLoop` issues one request per id, in order, and its final error
slot holds the last failure's message when there is one, otherwise the
incoming value. -/
lemma orDefault_none {α : Type} (x : Option α) : orDefault x none = x := by
  cases x <;> rfl

lemma deleteLoop_eq (outcome : String → DeleteOutcome) :
    ∀ (ids : List String) (err : Option String),
      deleteLoop outcome ids err =
        (ids, orDefault (lastOpt (ids.filterMap (fun i => outcomeError (outcome i)))) err) := by
  intro ids
  induction ids with
  | nil => intro err; rfl
  | cons i rest ih =>
    intro err
    simp only [deleteLoop, List.filterMap_cons]
    cases h : outcomeError (outcome i) with
    | none => simp [h, ih]
    | some m =>
      simp only [h, ih]
      cases hl : lastOpt (rest.filterMap fun i => outcomeError (outcome i)) with
      | none => simp [lastOpt, orDefault, hl]
      | some b => simp [lastOpt, orDefault, hl]

/-- Closed form of `handleDeleteSelected` on a non-empty selection. -/
lemma handleDeleteSelected_eq (outcome : String → DeleteOutcome)
    (st : HistoryState) (h : st.selectedIds.isEmpty = false) :
    handleDeleteSelected outcome st =
      (st.selectedIds,
        { conversions := st.conversions.filter (fun c => !st.selectedIds.contains c.id)
          selectedIds := []
          error :=
            lastOpt (st.selectedIds.filterMap (fun i => outcomeError (outcome i))) }) := by
  have hne : ¬ (st.selectedIds.isEmpty = true) := by simp [h]
  unfold handleDeleteSelected
  rw [if_neg hne, deleteLoop_eq]
  simp only [orDefault_none]

/-- Closed form of one ingestion step. -/
lemma upload_eq (st : Store) (fn mt ext : String) (t : Nat) (bytes : List Nat) :
    upload st fn mt ext t bytes =
      ({ id := st.nextId + 1
         storage_path := st.nextId
         original_filename := fn
         media_type := mt
         extension := ext
         size_bytes := bytes.length
         checksum := checksum bytes
         created_at := t },
       { files :=
           { id := st.nextId + 1
             storage_path := st.nextId
             original_filename := fn
             media_type := mt
             extension := ext
             size_bytes := bytes.length
             checksum := checksum bytes
             created_at := t } :: st.files
         jobs := st.jobs
         blobs := (st.nextId, bytes) :: st.blobs
         nextId := st.nextId + 2 }) := rfl

/-- Characterizing when one job contributes a row to the
completed-conversions query. -/
lemma completeView_eq_some (st : Store) (j : ConversionJob) (v : ConversionView) :
    completeView st j = some v ↔
      (j.status = .complete ∧ ∃ oid out, j.output_id = some oid ∧
        findFile st oid = some out ∧ v = mkView st j out) := by
  unfold completeView
  by_cases hs : j.status = .complete
  · rw [if_pos hs]
    cases ho : j.output_id with
    | none => simp [hs]
    | some oid =>
      rw [Option.some_bind]
      cases hf : findFile st oid with
      | none => simp [hs, hf]
      | some out =>
        constructor
        · intro hv
          exact ⟨hs, oid, out, rfl, hf, (Option.some.inj hv).symm⟩
        · rintro ⟨-, oid', out', hoid, hout, hv⟩
          have h1 : oid' = oid := (Option.some.inj hoid).symm
          subst h1
          rw [hf] at hout
          have h2 : out = out' := Option.some.inj hout
          subst h2
          rw [hv]
          rfl
  · rw [if_neg hs]
    simp [hs]

/-! ## Claim theorems -/

/-- C9 — For every completed conversion displayed (`getDisplayFilename` in
FileListItem.tsx with `isPending = false` and a conversion present) or
downloaded (`handleDownload` in History.tsx and the Converter page), the
output filename follows the claimed fixed rule: start from the
`original_filename` (or `"download"` when empty/missing); keep the prefix
before the last `'.'` when that dot's index is greater than 0, otherwise
the whole name; append the conversion's extension verbatim (or `""` when
missing). -/
theorem output_filename_rule (fn ext : Option String) :
    handleDownloadFilename fn ext = claimedOutputFilename fn ext ∧
      getDisplayFilename false true fn ext = claimedOutputFilename fn ext := by
  have hbase := base_name_eq (jsStringOr fn "download")
  have hext := jsStringOr_empty ext
  constructor
  · show
      (if jsLastIndexOfDot (jsStringOr fn "download") > 0 then
          String.mk ((jsStringOr fn "download").toList.take
            (jsLastIndexOfDot (jsStringOr fn "download")).toNat)
        else jsStringOr fn "download") ++ jsStringOr ext "" =
        claimedOutputFilename fn ext
    rw [hbase, hext]
    rfl
  · show
      (if jsLastIndexOfDot (jsStringOr fn "download") > 0 then
          String.mk ((jsStringOr fn "download").toList.take
            (jsLastIndexOfDot (jsStringOr fn "download")).toNat)
        else jsStringOr fn "download") ++ jsStringOr ext "" =
        claimedOutputFilename fn ext
    rw [hbase, hext]
    rfl

/-- C10 — After `handleDeleteSelected` finishes on a non-empty selection:
the displayed list is the previous list with every selected id filtered
out (so no remaining row carries a selected id), the selection set is
emptied, and the `error` slot holds exactly the last failure's message —
at most one message for the whole batch — all regardless of which
individual DELETE requests failed. -/
theorem handleDeleteSelected_final_state (outcome : String → DeleteOutcome)
    (st : HistoryState) (h : st.selectedIds.isEmpty = false) :
    (handleDeleteSelected outcome st).2.conversions =
        st.conversions.filter (fun c => !st.selectedIds.contains c.id) ∧
      ((handleDeleteSelected outcome st).2.conversions.all
          (fun c => !st.selectedIds.contains c.id)) = true ∧
      (handleDeleteSelected outcome st).2.selectedIds = [] ∧
      (handleDeleteSelected outcome st).2.error =
        lastOpt (st.selectedIds.filterMap (fun i => outcomeError (outcome i))) := by
  rw [handleDeleteSelected_eq outcome st h]
  refine ⟨rfl, ?_, rfl, rfl⟩
  rw [List.all_eq_true]
  intro c hc
  exact (List.mem_filter.mp hc).2

/-- Witness for C10 at a concrete run: two selected ids, the first DELETE
fails with message `"E"`, the second succeeds. -/
theorem handleDeleteSelected_final_state_witness :
    (handleDeleteSelected ocFailFirst stBatch).2.conversions =
        stBatch.conversions.filter (fun c => !stBatch.selectedIds.contains c.id) ∧
      ((handleDeleteSelected ocFailFirst stBatch).2.conversions.all
          (fun c => !stBatch.selectedIds.contains c.id)) = true ∧
      (handleDeleteSelected ocFailFirst stBatch).2.selectedIds = [] ∧
      (handleDeleteSelected ocFailFirst stBatch).2.error =
        lastOpt (stBatch.selectedIds.filterMap
          (fun i => outcomeError (ocFailFirst i))) :=
  handleDeleteSelected_final_state ocFailFirst stBatch (by decide)

/-- C1 (amended) — The client batch delete processes its id set sequentially
in order (every selected id gets its own request, in selection order, so an
individual item's failure does not abort processing of the remaining
items), but the aggregate outcome it retains is a single error slot holding
only the last failure's message, not a per-item success/failure record. -/
theorem batchDelete_sequential_last_error (outcome : String → DeleteOutcome)
    (st : HistoryState) (h : st.selectedIds.isEmpty = false) :
    (handleDeleteSelected outcome st).1 = st.selectedIds ∧
      (handleDeleteSelected outcome st).2.error =
        lastOpt (st.selectedIds.filterMap (fun i => outcomeError (outcome i))) := by
  rw [handleDeleteSelected_eq outcome st h]
  exact ⟨rfl, rfl⟩

/-- Witness for the C1 amended theorem: with the first of two DELETEs
failing, both ids are still requested in order and the error slot holds the
failure's message. -/
theorem batchDelete_sequential_last_error_witness :
    (handleDeleteSelected ocFailFirst stBatch).1 = stBatch.selectedIds ∧
      (handleDeleteSelected ocFailFirst stBatch).2.error =
        lastOpt (stBatch.selectedIds.filterMap
          (fun i => outcomeError (ocFailFirst i))) :=
  batchDelete_sequential_last_error ocFailFirst stBatch (by decide)

/-- C1 (counterexample) — The aggregate outcome does not indicate per-item
success/failure: two batch runs over the same two selected ids, one in
which only id `"a"`'s DELETE fails and one in which only id `"b"`'s DELETE
fails, produce exactly the same final client state (and the same request
list), so no reading of the aggregate outcome can recover which items
failed. -/
theorem batchDelete_aggregate_not_per_item :
    handleDeleteSelected ocFailFirst stBatch = handleDeleteSelected ocFailSecond stBatch ∧
      ocFailFirst "a" ≠ ocFailSecond "a" ∧ ocFailFirst "b" ≠ ocFailSecond "b" := by
  decide

/-- C2 — Job status transitions are monotonic along
pending → running → {complete | failed}: every admissible transition starts
from a non-terminal status and strictly increases the lifecycle rank (so
nothing leaves `complete` or `failed` and nothing moves backward), and the
three forward steps are exactly the admissible ones. -/
theorem status_transitions_monotonic :
    (∀ a b : JobStatus, canStep a b = true →
        a.isTerminal = false ∧ statusRank a < statusRank b) ∧
      canStep .pending .running = true ∧
      canStep .running .complete = true ∧
      canStep .running .failed = true ∧
      (∀ b : JobStatus, canStep .complete b = false ∧ canStep .failed b = false) := by
  refine ⟨?_, rfl, rfl, rfl, ?_⟩
  · intro a b h
    cases a <;> cases b <;> first
      | exact absurd h (by decide)
      | exact ⟨rfl, by decide⟩
  · intro b
    cases b <;> exact ⟨rfl, rfl⟩

/-- C3 — When the Registry has no converter for the requested
(input_format, output_format) pair, `submit` leaves the store — in
particular the job table — completely unchanged, and (for a request that
passes the earlier source validations) fails with UnsupportedFormat. -/
theorem submit_unsupported_no_job_row
    (runConv : String → List Nat → Option (List Nat)) (reg : Registry)
    (st : Store) (sid : Nat) (inputF outputF : String)
    (h : resolve reg inputF outputF = none) :
    (submit runConv reg st sid inputF outputF).2 = st ∧
      (∀ src, findFile st sid = some src → src.size_bytes ≠ 0 →
        normalizeFormat inputF = normalizeFormat src.extension →
        (submit runConv reg st sid inputF outputF).1 =
          Except.error SubmitError.unsupportedFormat) := by
  have h2 : ∀ src, findFile st sid = some src → src.size_bytes ≠ 0 →
      normalizeFormat inputF = normalizeFormat src.extension →
      submit runConv reg st sid inputF outputF =
        (Except.error SubmitError.unsupportedFormat, st) := by
    intro src hsrc hz hfmt
    unfold submit
    rw [hsrc]
    show submitWithSource runConv reg st sid src inputF outputF =
      (Except.error SubmitError.unsupportedFormat, st)
    unfold submitWithSource
    rw [if_neg (by simp [hz]), if_neg (by simp [hfmt]), h]
  refine ⟨?_, fun src hsrc hz hfmt => by rw [h2 src hsrc hz hfmt]⟩
  unfold submit
  cases hsrc : findFile st sid with
  | none => rfl
  | some src =>
    show (submitWithSource runConv reg st sid src inputF outputF).2 = st
    unfold submitWithSource
    by_cases hz : (src.size_bytes == 0) = true
    · rw [if_pos hz]
    · rw [if_neg hz]
      by_cases hm : (normalizeFormat inputF != normalizeFormat src.extension) = true
      · rw [if_pos hm]
      · rw [if_neg hm]
        rw [h]

/-- Witness for C3: one jpg file uploaded, a registry knowing only
jpg → png, and a request for jpg → gif. -/
theorem submit_unsupported_no_job_row_witness :
    (submit runW regW stW 1 "jpg" "gif").2 = stW ∧
      (submit runW regW stW 1 "jpg" "gif").1 =
        Except.error SubmitError.unsupportedFormat := by
  have h := submit_unsupported_no_job_row runW regW stW 1 "jpg" "gif" (by decide)
  exact ⟨h.1, h.2 recW (by decide) (by decide) (by decide)⟩

/-- C4 — Uploading a file and immediately downloading it by the returned id
yields exactly the uploaded bytes, the recorded checksum is the content
hash of those bytes (hence unchanged by the read), and the stored record is
exactly the returned one. -/
theorem upload_download_roundtrip (st : Store) (fn mt ext : String) (t : Nat)
    (bytes : List Nat) :
    downloadFile (upload st fn mt ext t bytes).2 (upload st fn mt ext t bytes).1.id =
        some bytes ∧
      (upload st fn mt ext t bytes).1.checksum = checksum bytes ∧
      findFile (upload st fn mt ext t bytes).2 (upload st fn mt ext t bytes).1.id =
        some (upload st fn mt ext t bytes).1 := by
  rw [upload_eq]
  refine ⟨?_, rfl, ?_⟩
  · unfold downloadFile findFile getBlob
    simp [List.find?_cons_of_pos]
  · unfold findFile
    simp [List.find?_cons_of_pos]

/-- C5 — Deleting a file is idempotent: after a successful
`DELETE /files/{id}`, a second delete of the same id returns NotFound and
leaves the state exactly as the first delete left it; and deleting an
already-absent storage path from the File Store is not an error — it is a
no-op. -/
theorem delete_file_idempotent (st : Store) (i p : Nat) :
    ((deleteFile st i).1 = Except.ok () →
        deleteFile (deleteFile st i).2 i =
          (Except.error ApiError.notFound, (deleteFile st i).2)) ∧
      ((st.blobs.all (fun b => b.1 != p)) = true → deletePath st p = st) := by
  constructor
  · intro h1
    cases hf : findFile st i with
    | none =>
      have : deleteFile st i = (Except.error ApiError.notFound, st) := by
        unfold deleteFile
        rw [hf]
      rw [this] at h1
      exact absurd h1 (by simp)
    | some r =>
      have hfound : deleteFile st i = deleteFound st i r := by
        unfold deleteFile
        rw [hf]
      by_cases hc : (st.jobs.any (fun j => j.source_id == i && j.status == .running)) = true
      · have : deleteFile st i = (Except.error ApiError.conflict, st) := by
          rw [hfound]
          unfold deleteFound
          rw [if_pos hc]
        rw [this] at h1
        exact absurd h1 (by simp)
      · have hd : deleteFile st i =
            (Except.ok (),
              deletePath { st with files := st.files.filter (fun f => f.id != i) }
                r.storage_path) := by
          rw [hfound]
          unfold deleteFound
          rw [if_neg hc]
        rw [hd]
        have hfn : findFile
            (deletePath { st with files := st.files.filter (fun f => f.id != i) }
              r.storage_path) i = none := by
          unfold findFile deletePath
          rw [List.find?_eq_none]
          intro x hx
          have hmem := (List.mem_filter.mp hx).2
          simp only [bne_iff_ne, ne_eq] at hmem
          simp [hmem]
        unfold deleteFile
        rw [hfn]
  · intro hall
    unfold deletePath
    have : st.blobs.filter (fun b => b.1 != p) = st.blobs := by
      rw [List.filter_eq_self]
      rw [List.all_eq_true] at hall
      exact hall
    rw [this]

/-- Witness for C5: deleting the single uploaded file succeeds once, the
second delete returns NotFound on the unchanged state, and deleting the
absent path 5 is a no-op. -/
theorem delete_file_idempotent_witness :
    deleteFile (deleteFile stW 1).2 1 =
        (Except.error ApiError.notFound, (deleteFile stW 1).2) ∧
      deletePath stW 5 = stW := by
  have h := delete_file_idempotent stW 1 5
  exact ⟨h.1 (by rfl), h.2 (by decide)⟩

/-- C6 (amended) — A view belongs to `GET /conversions/complete` exactly
when it comes from a job whose status is `complete` and whose output
FileRecord exists; each returned view carries the output's own
(denormalized) metadata together with `original_file`, the join of the
source FileRecord — which is `none` exactly when the source has since been
deleted, the case the client's fallback handles. -/
theorem completeConversions_characterization (st : Store) (v : ConversionView) :
    v ∈ completeConversions st ↔
      ∃ j ∈ st.jobs, j.status = .complete ∧ ∃ oid out, j.output_id = some oid ∧
        findFile st oid = some out ∧ v = mkView st j out := by
  unfold completeConversions
  rw [List.mem_filterMap]
  constructor
  · rintro ⟨j, hj, hv⟩
    exact ⟨j, hj, (completeView_eq_some st j v).mp hv⟩
  · rintro ⟨j, hj, hrest⟩
    exact ⟨j, hj, (completeView_eq_some st j v).mpr hrest⟩

/-- C6 (counterexample) — After uploading `forest.jpg`, converting it to
png (the job completes) and then deleting the source file,
`GET /conversions/complete` still returns exactly one completed conversion,
and its joined source metadata is absent: the client can receive a
completed conversion whose source metadata is missing. -/
theorem completeConversions_source_absent :
    (completeConversions stC6).map (fun v => v.original_file) = [none] := by
  decide

/-- C7 — The `POST /files` response's `compatible_formats` is exactly the
Registry's `listCompatibleOutputs` for the uploaded file's format, and
every format in that list resolves to a registered converter, i.e. is a
valid conversion target for the file. -/
theorem upload_compatible_formats_resolvable (reg : Registry) (st : Store)
    (fn mt ext : String) (t : Nat) (bytes : List Nat) :
    (postFiles reg st fn mt ext t bytes).1.compatible_formats =
        listCompatibleOutputs reg ext ∧
      ∀ o, o ∈ (postFiles reg st fn mt ext t bytes).1.compatible_formats →
        (resolve reg ext o).isSome = true := by
  refine ⟨rfl, ?_⟩
  intro o ho
  have ho' : o ∈ listCompatibleOutputs reg ext := ho
  unfold listCompatibleOutputs at ho'
  rw [List.mem_filterMap] at ho'
  obtain ⟨e, he, hee⟩ := ho'
  by_cases hc : (normalizeFormat e.1 == normalizeFormat ext) = true
  · rw [if_pos hc] at hee
    have heo : e.2.1 = o := Option.some.inj hee
    unfold resolve
    have hsome : (List.find? (fun e =>
        normalizeFormat e.1 == normalizeFormat ext &&
        normalizeFormat e.2.1 == normalizeFormat o) reg.entries).isSome = true := by
      rw [List.find?_isSome]
      refine ⟨e, he, ?_⟩
      rw [Bool.and_eq_true]
      exact ⟨hc, by rw [heo]; exact beq_self_eq_true _⟩
    obtain ⟨w, hw⟩ := Option.isSome_iff_exists.mp hsome
    rw [hw]
    rfl
  · rw [if_neg hc] at hee
    exact absurd hee (by simp)

/-- Witness for C7 at the concrete registry knowing jpg → png: the response
for an uploaded `.jpg` file lists exactly `png`, and `png` resolves. -/
theorem upload_compatible_formats_resolvable_witness :
    (resolve regW ".jpg" "png").isSome = true :=
  (upload_compatible_formats_resolvable regW emptyStore "forest.jpg" "image/jpeg"
    ".jpg" 0 [1, 2, 3]).2 "png" (by decide)

/-- C8 — The settings the client saves and the server stores form a single
process-wide record with exactly the fields `theme`, `auto_download`,
`keep_originals` and `cleanup_ttl_minutes`: PATCHing the payload
`handleSave` builds and then GETting returns precisely those four values. -/
theorem settings_roundtrip_fields (cfg : AppSettings) (t : String) (a k : Bool)
    (c : Nat) :
    settingsGet (settingsPatch cfg (handleSavePayload t a k c)) =
      { theme := t, auto_download := a, keep_originals := k,
        cleanup_ttl_minutes := c } := rfl

end Transmute
